import Mathlib

/-!
Shallow embedding of the Tetrs core (src/game.rs, src/ui.rs) in Lean 4.

Rust `usize` coordinates are modelled as `Nat`; `i32` intermediates in the
rotation code are modelled as `Int`, with the `as usize` cast modelled as a
wrap modulo 2^64 (pointer width).  `Vec<Vec<Option<Playcell>>>` becomes
`List (List (Option Playcell))`.  Fallible Rust functions returning
`Result<(), ShiftError>` become `Except ShiftError Unit`, and `&mut`
mutation becomes explicit state passing: a method that mutates `self` and
the playfield returns the updated copies.
-/

namespace Tetrs

/-- The subset of `tui::style::Color` used by the game (src/game.rs piece
colors). -/
inductive Color where
  | Yellow | Cyan | Gray | Blue | Green | Red | White
deriving DecidableEq, Repr

/-- `Playcell` from src/ui.rs: an occupied grid cell, either active (part of
the falling piece) or locked. -/
structure Playcell where
  is_active : Bool
  color : Color
deriving DecidableEq, Repr

/-- `type Coordinates = (usize, usize)` from src/game.rs.  First component is
the column (x), second the row (y). -/
abbrev Coordinates := Nat × Nat

abbrev Row := List (Option Playcell)
abbrev Tiles := List Row

/-- `Playfield` from src/ui.rs.  Only the fields consumed by the core logic
are modelled: `tiles`, and the `rect.width` / `x_scaling` data feeding
`get_x_midpoint`.  The rect position, height and `y_scaling` only affect
rendering. -/
structure Playfield where
  tiles : Tiles
  rect_width : Nat
  x_scaling : Nat
deriving DecidableEq, Repr

/-- `Playfield::new` from src/ui.rs: `height` rows of `width` empty cells;
`rect.width = width * x_scaling + BORDER_PIXELS` with `BORDER_PIXELS = 2`.
The frame dimensions only position the rect on screen and are ignored
here. -/
def Playfield.new (_frame_width _frame_height width height x_scaling _y_scaling : Nat) :
    Playfield :=
  { tiles := List.replicate height (List.replicate width none)
    rect_width := width * x_scaling + 2
    x_scaling := x_scaling }

/-- `Playfield::get_x_midpoint` from src/ui.rs:
`((self.rect.width - 2) / self.x_scaling / 2)`. -/
def Playfield.get_x_midpoint (p : Playfield) : Nat :=
  (p.rect_width - 2) / p.x_scaling / 2

/-- `Direction` from src/game.rs. -/
inductive Direction where
  | Up | Down | Left | Right
deriving DecidableEq, Repr

/-- `ShiftError` from src/game.rs. -/
inductive ShiftError where
  | BorderCollision
  | BottomCollision
deriving DecidableEq, Repr

/-- `RotationState` from src/game.rs. -/
inductive RotationState where
  | Normal | QuarterTurned | HalfTurned | ThreeQuartersTurned
deriving DecidableEq, Repr

/-- `Tetromino` from src/game.rs.  The Rust `body` is a 4-element array; it
is modelled as a list (every piece built by the program has length 4). -/
structure Tetromino where
  shape : Char
  body : List Coordinates
  color : Color
  rotation : RotationState
deriving DecidableEq, Repr

/-- Writing one tile: Rust `playfield.tiles[y][x] = v`.  `List.set` is a
no-op out of bounds where Rust would panic; all verified uses stay in
bounds. -/
def setTile (ts : Tiles) (y x : Nat) (v : Option Playcell) : Tiles :=
  ts.set y ((ts.getD y []).set x v)

/-- Reading one tile (total; out of bounds reads give `none`). -/
def getTile (ts : Tiles) (y x : Nat) : Option Playcell :=
  (ts.getD y []).getD x none

/-- The first loop of `Tetromino::change_position`: clear every cell of the
old body. -/
def clearCells : Tiles → List Coordinates → Tiles
  | ts, [] => ts
  | ts, (x, y) :: rest => clearCells (setTile ts y x none) rest

/-- The second loop of `Tetromino::change_position`: mark every cell of the
new body as an active cell of the given color. -/
def setActiveCells (color : Color) : Tiles → List Coordinates → Tiles
  | ts, [] => ts
  | ts, (x, y) :: rest =>
    setActiveCells color (setTile ts y x (some ⟨true, color⟩)) rest

/-- `Tetromino::change_position` from src/game.rs: clear the old body cells,
set the new body cells active, store the new body in the piece. -/
def Tetromino.change_position (t : Tetromino) (new_body : List Coordinates)
    (p : Playfield) : Tetromino × Playfield :=
  let ts1 := clearCells p.tiles t.body
  let ts2 := setActiveCells t.color ts1 new_body
  ({ t with body := new_body }, { p with tiles := ts2 })

/-- The body of the `Tetromino::collides` loop for one candidate
coordinate:
`tiles.get(y).ok_or(BottomCollision)?.get(x).ok_or(BorderCollision)?`, then
a hit on an inactive (locked) cell is `BottomCollision` going Down and
`BorderCollision` otherwise; active cells and empty cells pass. -/
def stepRes (p : Playfield) (d : Direction) (c : Coordinates) : Except ShiftError Unit :=
  match p.tiles[c.2]? with
  | none => Except.error ShiftError.BottomCollision
  | some row =>
    match row[c.1]? with
    | none => Except.error ShiftError.BorderCollision
    | some none => Except.ok ()
    | some (some playcell) =>
      if playcell.is_active then Except.ok ()
      else
        match d with
        | Direction.Down => Except.error ShiftError.BottomCollision
        | _ => Except.error ShiftError.BorderCollision

/-- The `Tetromino::collides` loop: classify each candidate coordinate in
order, returning the first failure. -/
def collidesAux (p : Playfield) (d : Direction) : List Coordinates → Except ShiftError Unit
  | [] => Except.ok ()
  | c :: rest =>
    match stepRes p d c with
    | Except.ok _ => collidesAux p d rest
    | Except.error e => Except.error e

/-- `Tetromino::collides` from src/game.rs. -/
def Tetromino.collides (_t : Tetromino) (new_body : List Coordinates)
    (p : Playfield) (d : Direction) : Except ShiftError Unit :=
  collidesAux p d new_body

/-- Rust `Result::is_ok`. -/
def isOkE : Except ShiftError Unit → Bool
  | Except.ok _ => true
  | Except.error _ => false

instance {ε α : Type _} [DecidableEq ε] [DecidableEq α] : DecidableEq (Except ε α) :=
  fun a b =>
    match a, b with
    | Except.ok x, Except.ok y =>
      if h : x = y then isTrue (by rw [h]) else isFalse (fun hh => h (by injection hh))
    | Except.ok _, Except.error _ => isFalse (fun h => Except.noConfusion h)
    | Except.error _, Except.ok _ => isFalse (fun h => Except.noConfusion h)
    | Except.error x, Except.error y =>
      if h : x = y then isTrue (by rw [h]) else isFalse (fun hh => h (by injection hh))

/-- The body-offset computation of `Tetromino::shift`: a unit offset per
direction, where `checked_sub(1).ok_or(BorderCollision)?` fails on an
unsigned decrement below zero.  (The Rust loop mutates a local copy that is
discarded on error, so early return is equivalent to this list recursion.) -/
def shiftBody (d : Direction) : List Coordinates → Except ShiftError (List Coordinates)
  | [] => Except.ok []
  | c :: rest =>
    match d with
    | Direction.Up =>
      if c.2 = 0 then Except.error ShiftError.BorderCollision
      else
        match shiftBody d rest with
        | Except.ok rs => Except.ok ((c.1, c.2 - 1) :: rs)
        | Except.error e => Except.error e
    | Direction.Down =>
      match shiftBody d rest with
      | Except.ok rs => Except.ok ((c.1, c.2 + 1) :: rs)
      | Except.error e => Except.error e
    | Direction.Right =>
      if c.1 = 0 then Except.error ShiftError.BorderCollision
      else
        match shiftBody d rest with
        | Except.ok rs => Except.ok ((c.1 - 1, c.2) :: rs)
        | Except.error e => Except.error e
    | Direction.Left =>
      match shiftBody d rest with
      | Except.ok rs => Except.ok ((c.1 + 1, c.2) :: rs)
      | Except.error e => Except.error e

/-- `Tetromino::shift` from src/game.rs.  Returns the `Result` together with
the (possibly updated) piece and playfield. -/
def Tetromino.shift (t : Tetromino) (p : Playfield) (d : Direction) :
    Except ShiftError Unit × Tetromino × Playfield :=
  match shiftBody d t.body with
  | Except.error e => (Except.error e, t, p)
  | Except.ok new_body =>
    match t.collides new_body p d with
    | Except.error e => (Except.error e, t, p)
    | Except.ok _ =>
      let tp := t.change_position new_body p
      (Except.ok (), tp.1, tp.2)

/-- One downward step of the `hard_drop` trial body (`*y += 1`). -/
def down1 (c : Coordinates) : Coordinates := (c.1, c.2 + 1)

/-- The trial body moved down by `k` rows. -/
def downBy (k : Nat) (body : List Coordinates) : List Coordinates :=
  body.map (fun c => (c.1, c.2 + k))

/-- The `while` loop of `Tetromino::hard_drop`, with explicit fuel.  In the
source the loop terminates because a row index eventually leaves the grid,
which happens after at most `tiles.len()` increments for any nonempty body;
`tiles.len() + 1` units of fuel therefore reproduce the source exactly on
every body the program builds (bodies always have 4 cells). -/
def hardDropLoop (t : Tetromino) (p : Playfield) : Nat → List Coordinates → List Coordinates
  | 0, nb => nb
  | fuel + 1, nb =>
    if isOkE (t.collides nb p Direction.Down) then
      hardDropLoop t p fuel (nb.map down1)
    else nb

/-- The number of downward steps taken by `hardDropLoop` (same recursion,
counting). -/
def dropDist (t : Tetromino) (p : Playfield) : Nat → List Coordinates → Nat
  | 0, _ => 0
  | fuel + 1, nb =>
    if isOkE (t.collides nb p Direction.Down) then
      dropDist t p fuel (nb.map down1) + 1
    else 0

/-- `Tetromino::hard_drop` from src/game.rs: advance a trial body down while
collision-free, back off one row (`*y -= 1`, total on `Nat` like the
release-mode wrap; never reached at 0 under the preconditions proved below),
commit, and return `BottomCollision` unconditionally. -/
def Tetromino.hard_drop (t : Tetromino) (p : Playfield) :
    Tetromino × Playfield × ShiftError :=
  let nb := hardDropLoop t p (p.tiles.length + 1) t.body
  let nb2 := nb.map (fun c => (c.1, c.2 - 1))
  let tp := t.change_position nb2 p
  (tp.1, tp.2, ShiftError.BottomCollision)

/-- The `new_rotation` state table of `Tetromino::rotate`. -/
def rotNext (r : RotationState) (clockwise : Bool) : RotationState :=
  match r, clockwise with
  | RotationState.Normal, true => RotationState.QuarterTurned
  | RotationState.Normal, false => RotationState.ThreeQuartersTurned
  | RotationState.QuarterTurned, true => RotationState.HalfTurned
  | RotationState.QuarterTurned, false => RotationState.Normal
  | RotationState.HalfTurned, true => RotationState.ThreeQuartersTurned
  | RotationState.HalfTurned, false => RotationState.QuarterTurned
  | RotationState.ThreeQuartersTurned, true => RotationState.Normal
  | RotationState.ThreeQuartersTurned, false => RotationState.HalfTurned

/-- The `from_rotation` offset tables of `Tetromino::rotate`: one table for
the I shape, one shared by every other shape. -/
def offsetsFor (shape : Char) (r : RotationState) : List (Int × Int) :=
  if shape = 'I' then
    match r with
    | RotationState.Normal => [(0, 0), (-1, 0), (2, 0), (-1, 0), (2, 0)]
    | RotationState.QuarterTurned => [(-1, 0), (0, 0), (0, 0), (0, 1), (0, -2)]
    | RotationState.HalfTurned => [(-1, 1), (1, 1), (-2, 1), (1, 0), (-2, 0)]
    | RotationState.ThreeQuartersTurned => [(0, 1), (0, 1), (0, 1), (0, -1), (0, 2)]
  else
    match r with
    | RotationState.Normal => [(0, 0), (0, 0), (0, 0), (0, 0), (0, 0)]
    | RotationState.QuarterTurned => [(0, 0), (1, 0), (1, -1), (0, 2), (1, 2)]
    | RotationState.HalfTurned => [(0, 0), (0, 0), (0, 0), (0, 0), (0, 0)]
    | RotationState.ThreeQuartersTurned => [(0, 0), (-1, 0), (-1, -1), (0, 2), (-1, 2)]

/-- `wallkick_tries`: elementwise difference of the origin-state and
destination-state offset rows. -/
def wallkickTries (t : Tetromino) (clockwise : Bool) : List (Int × Int) :=
  List.zipWith (fun a b => (a.1 - b.1, a.2 - b.2))
    (offsetsFor t.shape t.rotation)
    (offsetsFor t.shape (rotNext t.rotation clockwise))

/-- The `new_coords` computation of `Tetromino::rotate`: coordinates
relative to the pivot `body[0]`, swapped, one axis negated, translated
back.  Computed over `Int` like the Rust `i32` intermediates. -/
def rotatedCoords (t : Tetromino) (clockwise : Bool) : List (Int × Int) :=
  let xp : Int := (t.body.getD 0 (0, 0)).1
  let yp : Int := (t.body.getD 0 (0, 0)).2
  t.body.map (fun c =>
    let xr : Int := (c.1 : Int) - xp
    let yr : Int := (c.2 : Int) - yp
    if clockwise then (-yr + xp, xr + yp) else (yr + xp, -xr + yp))

/-- Rust `i32 as usize`: sign-extend and reinterpret, i.e. reduce modulo
2^64.  A negative kicked coordinate becomes a huge index, which the
collision check then rejects as out of bounds, exactly as in the source. -/
def usizeOfInt (v : Int) : Nat := (v % (2 : Int) ^ 64).toNat

/-- One wall-kick candidate body: `(x + x_to_try) as usize`,
`(y - y_to_try) as usize` applied to every rotated coordinate. -/
def kickCandidate (nc : List (Int × Int)) (k : Int × Int) : List Coordinates :=
  nc.map (fun c => (usizeOfInt (c.1 + k.1), usizeOfInt (c.2 - k.2)))

/-- The kick loop of `Tetromino::rotate`: try each candidate as an
Up-direction probe; commit the first collision-free one and advance the
rotation state; fall through silently if none succeeds. -/
def tryKicks (t : Tetromino) (p : Playfield) (nc : List (Int × Int))
    (nr : RotationState) : List (Int × Int) → Tetromino × Playfield
  | [] => (t, p)
  | k :: rest =>
    let cand := kickCandidate nc k
    if isOkE (t.collides cand p Direction.Up) then
      let tp := t.change_position cand p
      ({ tp.1 with rotation := nr }, tp.2)
    else tryKicks t p nc nr rest

/-- `Tetromino::rotate` from src/game.rs.  Returns no error value: a failed
rotation is a silent no-op. -/
def Tetromino.rotate (t : Tetromino) (p : Playfield) (clockwise : Bool) :
    Tetromino × Playfield :=
  if t.shape = 'O' then (t, p)
  else
    tryKicks t p (rotatedCoords t clockwise) (rotNext t.rotation clockwise)
      (wallkickTries t clockwise)

/-- `Tetromino::get_length` from src/game.rs: fold `max`/`min` over the body
columns, both starting from 0, returning `max + min + 1`. -/
def Tetromino.get_length (t : Tetromino) : Nat :=
  let r := t.body.foldl (fun acc c => (Nat.max acc.1 c.1, Nat.min acc.2 c.1)) (0, 0)
  r.1 + r.2 + 1

/-- The body-and-grid loop of `Tetromino::spawn`: add the midpoint offset to
each column and mark the cell active, sequentially. -/
def spawnLoop (color : Color) (mp : Nat) : List Coordinates → Tiles → List Coordinates × Tiles
  | [], ts => ([], ts)
  | (x, y) :: rest, ts =>
    let x' := x + mp
    let ts1 := setTile ts y x' (some ⟨true, color⟩)
    let r := spawnLoop color mp rest ts1
    ((x', y) :: r.1, r.2)

/-- `Tetromino::spawn` from src/game.rs. -/
def Tetromino.spawn (t : Tetromino) (p : Playfield) : Tetromino × Playfield :=
  let middle_point : Nat := p.get_x_midpoint - t.get_length / 2
  let r := spawnLoop t.color middle_point t.body p.tiles
  ({ t with body := r.1 }, { p with tiles := r.2 })

/-- The seven pieces of `TetrominosBag::new`, in source order. -/
def pieceO : Tetromino := ⟨'O', [(0, 0), (0, 1), (1, 0), (1, 1)], Color.Yellow, RotationState.Normal⟩

def pieceI : Tetromino := ⟨'I', [(1, 0), (2, 0), (0, 0), (3, 0)], Color.Cyan, RotationState.Normal⟩

def pieceJ : Tetromino := ⟨'J', [(1, 1), (0, 1), (0, 0), (2, 1)], Color.Gray, RotationState.Normal⟩

def pieceL : Tetromino := ⟨'L', [(1, 1), (0, 1), (2, 1), (2, 0)], Color.Blue, RotationState.Normal⟩

def pieceS : Tetromino := ⟨'S', [(1, 1), (0, 1), (1, 0), (2, 0)], Color.Green, RotationState.Normal⟩

def pieceZ : Tetromino := ⟨'Z', [(1, 1), (1, 0), (0, 0), (2, 1)], Color.Red, RotationState.Normal⟩

def pieceT : Tetromino := ⟨'T', [(1, 1), (0, 1), (1, 0), (2, 1)], Color.White, RotationState.Normal⟩

/-- `TetrominosBag` from src/game.rs.  The Rust array of 7 is modelled as a
list. -/
structure TetrominosBag where
  tetrominos : List Tetromino
  index : Nat
deriving DecidableEq, Repr

def TetrominosBag.new : TetrominosBag :=
  ⟨[pieceO, pieceI, pieceJ, pieceL, pieceS, pieceZ, pieceT], 0⟩

/-- `TetrominosBag::shuffle`.  The `thread_rng` permutation is the one
external source of nondeterminism; it is modelled by the parameter `sh`,
whose contract (it permutes the slice) becomes a hypothesis of the bag
theorems. -/
def TetrominosBag.shuffle (sh : List Tetromino → List Tetromino)
    (b : TetrominosBag) : TetrominosBag :=
  ⟨sh b.tetrominos, 0⟩

/-- `TetrominosBag::get`: reshuffle when the cursor has consumed the whole
array, then return the element at the cursor and advance it. -/
def TetrominosBag.get (sh : List Tetromino → List Tetromino)
    (b : TetrominosBag) : Tetromino × TetrominosBag :=
  let b1 := if b.tetrominos.length ≤ b.index then b.shuffle sh else b
  (b1.tetrominos.getD b1.index pieceO, ⟨b1.tetrominos, b1.index + 1⟩)

/-- Drawing `n` consecutive pieces; `shs k` is the permutation the RNG would
produce at the k-th remaining call to `shuffle`-triggering `get`s (the
stream is advanced one position per draw so that each draw may, if it
reshuffles, use a fresh permutation). -/
def drawN (shs : Nat → List Tetromino → List Tetromino) :
    Nat → TetrominosBag → List Tetromino × TetrominosBag
  | 0, b => ([], b)
  | n + 1, b =>
    let r := b.get (shs 0)
    let r2 := drawN (fun k => shs (k + 1)) n r.2
    (r.1 :: r2.1, r2.2)

/-- `row.iter().all(|x| x.is_some())` — a full row. -/
def rowFull (r : Row) : Bool := r.all (fun x => x.isSome)

/-- `tiles.swap(i, j)` on the row list. -/
def swapRows (ts : Tiles) (i j : Nat) : Tiles :=
  (ts.set i (ts.getD j [])).set j (ts.getD i [])

/-- Clearing row `y` inside `Playfield::clear_lines`: blank the row, then
`for line in (0..y).rev() { tiles.swap(line, line + 1) }`. -/
def clearAt (ts : Tiles) (y : Nat) : Tiles :=
  let ts1 := ts.set y ((ts.getD y []).map (fun _ => none))
  (List.range y).reverse.foldl (fun acc line => swapRows acc line (line + 1)) ts1

/-- One iteration of the `clear_lines` scan at row index `y`. -/
def clearStep (st : Bool × Tiles) (y : Nat) : Bool × Tiles :=
  if rowFull (st.2.getD y []) then (true, clearAt st.2 y) else st

/-- `Playfield::clear_lines` from src/game.rs: scan rows `0..len` in order.
Returns the flag together with the updated playfield. -/
def Playfield.clear_lines (p : Playfield) : Bool × Playfield :=
  let r := (List.range p.tiles.length).foldl clearStep (false, p.tiles)
  (r.1, { p with tiles := r.2 })

/-- Is the falling piece occupying this coordinate?  (Total read; out of
bounds and empty cells are not active.) -/
def isActiveAt (p : Playfield) (c : Coordinates) : Bool :=
  (Option.map Playcell.is_active (getTile p.tiles c.2 c.1)).getD false

/-- In-bounds predicate for a coordinate against a tile matrix. -/
def inB (ts : Tiles) (c : Coordinates) : Prop :=
  c.2 < ts.length ∧ c.1 < (ts.getD c.2 []).length

instance (ts : Tiles) (c : Coordinates) : Decidable (inB ts c) :=
  inferInstanceAs (Decidable (c.2 < ts.length ∧ c.1 < (ts.getD c.2 []).length))

/-- The active cells of the grid are exactly the given body, as sets of
coordinates. -/
def sameActiveAs (p : Playfield) (body : List Coordinates) : Prop :=
  ∀ c : Coordinates, isActiveAt p c = true ↔ c ∈ body

/-- Repeatedly applying `rotate` with the given clockwise flags. -/
def rotSeq (flags : List Bool) (tp : Tetromino × Playfield) : Tetromino × Playfield :=
  flags.foldl (fun st cw => st.1.rotate st.2 cw) tp

/-- Modelled from the spec: the minimum column over a body (`min(col)` of
the extent formula `extent = max(col) − min(col) + 1`). -/
def minCol (l : List Coordinates) : Nat :=
  match l with
  | [] => 0
  | c :: rest => rest.foldl (fun m c' => Nat.min m c'.1) c.1

/-- Modelled from the spec: the maximum column over a body (`max(col)` of
the extent formula; 0 for an empty body). -/
def maxCol (l : List Coordinates) : Nat :=
  l.foldl (fun m c' => Nat.max m c'.1) 0

/-- A one-by-one playfield with a single empty cell (concrete test grid). -/
def tinyGrid : Playfield := ⟨[[none]], 4, 2⟩

/-- An empty 4-wide, 4-tall playfield built through `Playfield::new`. -/
def smallGrid : Playfield := Playfield.new 20 20 4 4 1 1

/-- A 6-wide, 2-tall playfield whose first two columns hold the active cells
of an O piece in its default (unshifted) position. -/
def occupiedGrid : Playfield :=
  ⟨[[some ⟨true, Color.Yellow⟩, some ⟨true, Color.Yellow⟩, none, none, none, none],
    [some ⟨true, Color.Yellow⟩, some ⟨true, Color.Yellow⟩, none, none, none, none]], 8, 1⟩

/-- A 2-wide, 3-tall playfield whose top two rows are the active cells of an
O piece (concrete hard-drop scenario). -/
def dropGrid : Playfield :=
  ⟨[[some ⟨true, Color.Yellow⟩, some ⟨true, Color.Yellow⟩],
    [some ⟨true, Color.Yellow⟩, some ⟨true, Color.Yellow⟩],
    [none, none]], 4, 1⟩

/-- A locked (inactive) red cell. -/
def lockedRed : Option Playcell := some ⟨false, Color.Red⟩

/-- A 2-wide, 4-tall playfield whose bottom two rows are completely full of
locked cells and whose top two rows are not full. -/
def clearGrid : Playfield :=
  ⟨[[none, none], [lockedRed, none], [lockedRed, lockedRed], [lockedRed, lockedRed]], 4, 1⟩

/-! ### Basic facts about tile reads and writes -/

theorem getD_eq_of_getElem? {α : Type _} {l : List α} {n : Nat} {a d : α}
    (h : l[n]? = some a) : l.getD n d = a := by
  rw [List.getD_eq_getElem?_getD, h]; rfl

theorem length_setTile (ts : Tiles) (y x : Nat) (v : Option Playcell) :
    (setTile ts y x v).length = ts.length := by
  simp [setTile]

theorem rowLen_setTile (ts : Tiles) (y x : Nat) (v : Option Playcell) (y' : Nat) :
    ((setTile ts y x v).getD y' []).length = (ts.getD y' []).length := by
  unfold setTile
  rcases eq_or_ne y y' with h | h
  · subst h
    by_cases hy : y < ts.length
    · rw [getD_eq_of_getElem? (List.getElem?_set_self hy)]
      simp
    · rw [List.set_eq_of_length_le (Nat.le_of_not_lt hy)]
  · rw [List.getD_eq_getElem?_getD, List.getElem?_set_ne h, ← List.getD_eq_getElem?_getD]

theorem getTile_setTile (ts : Tiles) (y x : Nat) (v : Option Playcell) (y' x' : Nat) :
    getTile (setTile ts y x v) y' x' =
      if y' = y ∧ x' = x ∧ y < ts.length ∧ x < (ts.getD y []).length then v
      else getTile ts y' x' := by
  unfold setTile getTile
  by_cases hy : y < ts.length
  · rcases eq_or_ne y' y with hyy | hyy
    · subst hyy
      rw [getD_eq_of_getElem? (List.getElem?_set_self hy)]
      rcases eq_or_ne x' x with hxx | hxx
      · subst hxx
        by_cases hx : x' < (ts.getD y' []).length
        · rw [getD_eq_of_getElem? (List.getElem?_set_self hx), if_pos ⟨rfl, rfl, hy, hx⟩]
        · rw [List.set_eq_of_length_le (Nat.le_of_not_lt hx),
            if_neg (fun hc => hx hc.2.2.2)]
      · have hne : ((ts.getD y' []).set x v).getD x' none = (ts.getD y' []).getD x' none := by
          rw [List.getD_eq_getElem?_getD, List.getElem?_set_ne (Ne.symm hxx),
            ← List.getD_eq_getElem?_getD]
        rw [hne, if_neg (fun hc => hxx hc.2.1)]
    · have hne : (ts.set y ((ts.getD y []).set x v)).getD y' [] = ts.getD y' [] := by
        rw [List.getD_eq_getElem?_getD, List.getElem?_set_ne (Ne.symm hyy),
          ← List.getD_eq_getElem?_getD]
      rw [hne, if_neg (fun hc => hyy hc.1)]
  · rw [List.set_eq_of_length_le (Nat.le_of_not_lt hy),
      if_neg (fun hc => hy hc.2.2.1)]

theorem getTile_some_inB {ts : Tiles} {y x : Nat} {cell : Playcell}
    (h : getTile ts y x = some cell) : y < ts.length ∧ x < (ts.getD y []).length := by
  unfold getTile at h
  have hx : x < (ts.getD y []).length := by
    by_contra hge
    rw [List.getD_eq_getElem?_getD (ts.getD y []) x none,
      List.getElem?_eq_none (Nat.le_of_not_lt hge)] at h
    simp at h
  have hy : y < ts.length := by
    by_contra hge
    have hrow : ts.getD y [] = ([] : Row) := by
      rw [List.getD_eq_getElem?_getD, List.getElem?_eq_none (Nat.le_of_not_lt hge)]
      rfl
    rw [hrow] at hx
    simp at hx
  exact ⟨hy, hx⟩

/-! ### Decomposition of the collision check -/

theorem collides_ok_iff (t : Tetromino) (p : Playfield) (d : Direction)
    (l : List Coordinates) :
    isOkE (t.collides l p d) = true ↔ ∀ c ∈ l, stepRes p d c = Except.ok () := by
  induction l with
  | nil => simp [Tetromino.collides, collidesAux, isOkE]
  | cons c rest ih =>
    rcases h : stepRes p d c with e | u
    · have hc : collidesAux p d (c :: rest) = Except.error e := by
        simp only [collidesAux, h]
      show isOkE (collidesAux p d (c :: rest)) = true ↔ _
      rw [hc]
      simp only [isOkE]
      constructor
      · intro hfalse; exact absurd hfalse (by simp)
      · intro hall
        have h2 := hall c (List.mem_cons_self c rest)
        rw [h] at h2
        exact absurd h2 (by simp)
    · have hc : collidesAux p d (c :: rest) = collidesAux p d rest := by
        simp only [collidesAux, h]
      show isOkE (collidesAux p d (c :: rest)) = true ↔ _
      rw [hc]
      constructor
      · intro hok c' hc'
        rcases List.mem_cons.mp hc' with rfl | hc'
        · cases u; exact h
        · exact ih.mp hok c' hc'
      · intro hall
        exact ih.mpr (fun c' hc' => hall c' (List.mem_cons_of_mem _ hc'))

theorem getTile_of_getElem? {ts : Tiles} {y x : Nat} {row : Row} {co : Option Playcell}
    (h1 : ts[y]? = some row) (h2 : row[x]? = some co) : getTile ts y x = co := by
  unfold getTile
  rw [getD_eq_of_getElem? h1, getD_eq_of_getElem? h2]

/-- Full characterization of the per-coordinate collision check succeeding:
the coordinate is in bounds and its cell is empty or active. -/
theorem stepRes_ok_iff (p : Playfield) (d : Direction) (c : Coordinates) :
    stepRes p d c = Except.ok () ↔
      inB p.tiles c ∧ (getTile p.tiles c.2 c.1 = none ∨ isActiveAt p c = true) := by
  unfold stepRes
  split
  · next heq =>
    constructor
    · intro h; exact absurd h (by simp)
    · rintro ⟨⟨hy, -⟩, -⟩
      rw [List.getElem?_eq_getElem hy] at heq
      cases heq
  · next row heq =>
    split
    · next heq2 =>
      constructor
      · intro h; exact absurd h (by simp)
      · rintro ⟨⟨-, hx⟩, -⟩
        rw [getD_eq_of_getElem? heq] at hx
        rw [List.getElem?_eq_getElem hx] at heq2
        cases heq2
    · next heq2 =>
      have hy := (List.getElem?_eq_some.mp heq).1
      have hx := (List.getElem?_eq_some.mp heq2).1
      have hyv := (List.getElem?_eq_some.mp heq).2
      have hxD : c.1 < (p.tiles.getD c.2 []).length := by
        rw [getD_eq_of_getElem? heq]; exact hx
      have hgt : getTile p.tiles c.2 c.1 = none := getTile_of_getElem? heq heq2
      simp [inB, hy, hxD, hgt, hyv, hx]
    · next pc heq2 =>
      have hy := (List.getElem?_eq_some.mp heq).1
      have hx := (List.getElem?_eq_some.mp heq2).1
      have hxD : c.1 < (p.tiles.getD c.2 []).length := by
        rw [getD_eq_of_getElem? heq]; exact hx
      have hgt : getTile p.tiles c.2 c.1 = some pc := getTile_of_getElem? heq heq2
      have hyv := (List.getElem?_eq_some.mp heq).2
      by_cases hact : pc.is_active
      · simp [hact, inB, hy, hxD, isActiveAt, hgt, hyv, hx]
      · have hres : (match d with
            | Direction.Down => Except.error ShiftError.BottomCollision
            | _ => Except.error ShiftError.BorderCollision) ≠ (Except.ok () : Except ShiftError Unit) := by
          cases d <;> simp
        simp only [hact, Bool.false_eq_true, if_false]
        constructor
        · intro h; exact absurd h hres
        · rintro ⟨-, hor⟩
          rcases hor with hnone | hacteq
          · rw [hgt] at hnone; cases hnone
          · rw [isActiveAt, hgt] at hacteq
            simp at hacteq
            exact absurd hacteq hact

theorem stepRes_ok_inB {p : Playfield} {d : Direction} {c : Coordinates}
    (h : stepRes p d c = Except.ok ()) : inB p.tiles c :=
  ((stepRes_ok_iff p d c).mp h).1

theorem isActiveAt_some {p : Playfield} {c : Coordinates}
    (h : isActiveAt p c = true) :
    ∃ cell, getTile p.tiles c.2 c.1 = some cell ∧ cell.is_active = true := by
  rcases hg : getTile p.tiles c.2 c.1 with _ | cell
  · rw [isActiveAt, hg] at h
    exact absurd h (by simp)
  · refine ⟨cell, rfl, ?_⟩
    rw [isActiveAt, hg] at h
    simpa using h

theorem inB_of_active {p : Playfield} {c : Coordinates}
    (h : isActiveAt p c = true) : inB p.tiles c := by
  obtain ⟨cell, hg, -⟩ := isActiveAt_some h
  exact getTile_some_inB hg

theorem stepRes_of_active {p : Playfield} {d : Direction} {c : Coordinates}
    (h : isActiveAt p c = true) : stepRes p d c = Except.ok () :=
  (stepRes_ok_iff p d c).mpr ⟨inB_of_active h, Or.inr h⟩

theorem collides_ok_of_active (t : Tetromino) (p : Playfield) (d : Direction)
    (l : List Coordinates) (h : ∀ c ∈ l, isActiveAt p c = true) :
    isOkE (t.collides l p d) = true :=
  (collides_ok_iff t p d l).mpr (fun c hc => stepRes_of_active (h c hc))

theorem stepRes_row_oob {p : Playfield} {d : Direction} {c : Coordinates}
    (h : p.tiles.length ≤ c.2) : stepRes p d c = Except.error ShiftError.BottomCollision := by
  have hnone : p.tiles[c.2]? = none := List.getElem?_eq_none h
  unfold stepRes
  split
  · rfl
  · next row heq =>
    rw [hnone] at heq
    cases heq

theorem collidesAux_cons_ok {p : Playfield} {d : Direction} {c : Coordinates}
    {rest : List Coordinates} (h : stepRes p d c = Except.ok ()) :
    collidesAux p d (c :: rest) = collidesAux p d rest := by
  simp only [collidesAux, h]

theorem collidesAux_cons_err {p : Playfield} {d : Direction} {c : Coordinates}
    {rest : List Coordinates} {e : ShiftError} (h : stepRes p d c = Except.error e) :
    collidesAux p d (c :: rest) = Except.error e := by
  simp only [collidesAux, h]

/-! ### C1 — classification of out-of-bounds rows -/

/--
C1, amended.  The claim says a row index out of bounds is classified
`BottomCollision` only when the direction is Down and `BorderCollision`
otherwise.  In the source (`src/game.rs` line 80) the row lookup is
`.get(*y).ok_or(ShiftError::BottomCollision)?`, independent of the
direction: whenever the first failing candidate coordinate has its row
index out of bounds, `collides` returns `BottomCollision` for *every*
direction — including an Up-direction rotation probe.
-/
theorem C1_row_oob_always_bottom (t : Tetromino) (p : Playfield) (d : Direction)
    (pre : List Coordinates) (c : Coordinates) (post : List Coordinates)
    (hpre : ∀ c' ∈ pre, stepRes p d c' = Except.ok ())
    (hoob : p.tiles.length ≤ c.2) :
    t.collides (pre ++ c :: post) p d = Except.error ShiftError.BottomCollision := by
  induction pre with
  | nil =>
    show collidesAux p d (c :: post) = _
    exact collidesAux_cons_err (stepRes_row_oob hoob)
  | cons c' pre ih =>
    show collidesAux p d (c' :: (pre ++ c :: post)) = _
    rw [collidesAux_cons_ok (hpre c' (List.mem_cons_self c' pre))]
    exact ih (fun c'' hc'' => hpre c'' (List.mem_cons_of_mem c' hc''))

/--
C1, counterexample to the claim as stated: on a 1-row grid, probing
coordinate (0, 1) (row index 1, out of bounds) with direction Up yields
`BottomCollision`, not the `BorderCollision` the claim requires for non-Down
directions.
-/
theorem C1_counterexample :
    pieceO.collides [(0, 1)] tinyGrid Direction.Up = Except.error ShiftError.BottomCollision
      ∧ ShiftError.BottomCollision ≠ ShiftError.BorderCollision := by
  exact ⟨rfl, by decide⟩

/-- Witness for C1: the amended theorem applied at a concrete input. -/
theorem C1_witness :
    (∀ c' ∈ ([] : List Coordinates), stepRes tinyGrid Direction.Up c' = Except.ok ())
      ∧ tinyGrid.tiles.length ≤ 1
      ∧ pieceO.collides ([] ++ (0, 1) :: []) tinyGrid Direction.Up
          = Except.error ShiftError.BottomCollision := by
  refine ⟨by simp, by decide, ?_⟩
  exact C1_row_oob_always_bottom pieceO tinyGrid Direction.Up [] (0, 1) []
    (by simp) (by decide)

/-! ### C2 — shift commits only on success -/

/--
C2.  If `shift` returns an error, the piece and every grid cell are exactly
as before the call; the new body is committed (through `change_position`)
exactly when the collision check succeeds.
-/
theorem C2_shift_error_no_change (t : Tetromino) (p : Playfield) (d : Direction) :
    ((t.shift p d).1 ≠ Except.ok () → (t.shift p d).2 = (t, p))
      ∧ (∀ nb, shiftBody d t.body = Except.ok nb →
          isOkE (t.collides nb p d) = true →
          (t.shift p d).1 = Except.ok () ∧ (t.shift p d).2 = t.change_position nb p)
      ∧ ((t.shift p d).1 = Except.ok () →
          ∀ nb, shiftBody d t.body = Except.ok nb → isOkE (t.collides nb p d) = true) := by
  rcases hsb : shiftBody d t.body with e | nb
  · refine ⟨fun _ => ?_, fun nb hnb => absurd hnb (by simp), fun hok => ?_⟩
    · simp [Tetromino.shift, hsb]
    · simp [Tetromino.shift, hsb] at hok
  · rcases hc : t.collides nb p d with e | u
    · refine ⟨fun _ => ?_, fun nb' hnb' hok => ?_, fun hok => ?_⟩
      · simp [Tetromino.shift, hsb, hc]
      · cases hnb'
        rw [hc] at hok
        simp [isOkE] at hok
      · simp [Tetromino.shift, hsb, hc] at hok
    · cases u
      refine ⟨fun hne => ?_, fun nb' hnb' _ => ?_, fun _ nb' hnb' => ?_⟩
      · exact absurd (by simp [Tetromino.shift, hsb, hc]) hne
      · cases hnb'
        constructor <;> simp [Tetromino.shift, hsb, hc]
      · cases hnb'
        rw [hc]
        rfl

/-- Witness for C2: a rejected shift (O piece at the left border moved
Right) leaves the state unchanged, and an accepted shift (Down on an empty
grid) commits through `change_position`. -/
theorem C2_witness :
    ((pieceO.shift smallGrid Direction.Right).1 ≠ Except.ok ()
      ∧ (pieceO.shift smallGrid Direction.Right).2 = (pieceO, smallGrid))
      ∧ ((pieceO.shift smallGrid Direction.Down).1 = Except.ok ()
        ∧ (pieceO.shift smallGrid Direction.Down).2
            = pieceO.change_position [(0, 1), (0, 2), (1, 1), (1, 2)] smallGrid) := by
  constructor
  · have h := (C2_shift_error_no_change pieceO smallGrid Direction.Right).1 (by decide)
    exact ⟨by decide, h⟩
  · exact (C2_shift_error_no_change pieceO smallGrid Direction.Down).2.1
      [(0, 1), (0, 2), (1, 1), (1, 2)] (by decide) (by decide)

/-! ### C5 — silently rejected rotations -/

theorem tryKicks_none (t : Tetromino) (p : Playfield) (nc : List (Int × Int))
    (nr : RotationState) (ks : List (Int × Int))
    (h : ∀ k ∈ ks, isOkE (t.collides (kickCandidate nc k) p Direction.Up) = false) :
    tryKicks t p nc nr ks = (t, p) := by
  induction ks with
  | nil => rfl
  | cons k rest ih =>
    have hk := h k (List.mem_cons_self k rest)
    simp only [tryKicks, hk]
    simp only [Bool.false_eq_true, if_false]
    exact ih (fun k' hk' => h k' (List.mem_cons_of_mem k hk'))

/--
C5.  For a non-O piece, if none of the wall-kick candidate bodies passes
the collision check, `rotate` returns the piece and playfield completely
unchanged (body, rotation state and grid cells).  `rotate` has no error
output at all — the rejection is silent by type.
-/
theorem C5_rotate_silent_reject (t : Tetromino) (p : Playfield) (cw : Bool)
    (hshape : t.shape ≠ 'O')
    (hfail : ∀ k ∈ wallkickTries t cw,
      isOkE (t.collides (kickCandidate (rotatedCoords t cw) k) p Direction.Up) = false) :
    t.rotate p cw = (t, p) := by
  rw [Tetromino.rotate, if_neg hshape]
  exact tryKicks_none t p (rotatedCoords t cw) (rotNext t.rotation cw)
    (wallkickTries t cw) hfail

/-- Witness for C5: an I piece on a 1-by-1 grid; every kick candidate is
rejected, so a clockwise rotation is a no-op. -/
theorem C5_witness :
    (pieceI.shape ≠ 'O')
      ∧ (∀ k ∈ wallkickTries pieceI true,
          isOkE (pieceI.collides (kickCandidate (rotatedCoords pieceI true) k)
            tinyGrid Direction.Up) = false)
      ∧ pieceI.rotate tinyGrid true = (pieceI, tinyGrid) := by
  refine ⟨by decide, by decide, ?_⟩
  exact C5_rotate_silent_reject pieceI tinyGrid true (by decide) (by decide)

/-! ### C6 — the inverted Left/Right mapping -/

theorem shiftBody_left (l : List Coordinates) :
    shiftBody Direction.Left l = Except.ok (l.map (fun c => (c.1 + 1, c.2))) := by
  induction l with
  | nil => rfl
  | cons c rest ih => simp [shiftBody, ih]

theorem shiftBody_down (l : List Coordinates) :
    shiftBody Direction.Down l = Except.ok (l.map (fun c => (c.1, c.2 + 1))) := by
  induction l with
  | nil => rfl
  | cons c rest ih => simp [shiftBody, ih]

theorem shiftBody_right_ok (l : List Coordinates) (h : ∀ c ∈ l, c.1 ≠ 0) :
    shiftBody Direction.Right l = Except.ok (l.map (fun c => (c.1 - 1, c.2))) := by
  induction l with
  | nil => rfl
  | cons c rest ih =>
    have h0 := h c (List.mem_cons_self c rest)
    simp [shiftBody, h0, ih (fun c' hc' => h c' (List.mem_cons_of_mem c hc'))]

theorem shiftBody_right_err (l : List Coordinates) (h : ∃ c ∈ l, c.1 = 0) :
    shiftBody Direction.Right l = Except.error ShiftError.BorderCollision := by
  induction l with
  | nil => obtain ⟨c, hc, -⟩ := h; cases hc
  | cons c rest ih =>
    by_cases h0 : c.1 = 0
    · simp [shiftBody, h0]
    · obtain ⟨c', hc', hc0⟩ := h
      rcases List.mem_cons.mp hc' with rfl | hc'
      · exact absurd hc0 h0
      · simp [shiftBody, h0, ih ⟨c', hc', hc0⟩]

theorem shiftBody_up_ok (l : List Coordinates) (h : ∀ c ∈ l, c.2 ≠ 0) :
    shiftBody Direction.Up l = Except.ok (l.map (fun c => (c.1, c.2 - 1))) := by
  induction l with
  | nil => rfl
  | cons c rest ih =>
    have h0 := h c (List.mem_cons_self c rest)
    simp [shiftBody, h0, ih (fun c' hc' => h c' (List.mem_cons_of_mem c hc'))]

theorem shiftBody_up_err (l : List Coordinates) (h : ∃ c ∈ l, c.2 = 0) :
    shiftBody Direction.Up l = Except.error ShiftError.BorderCollision := by
  induction l with
  | nil => obtain ⟨c, hc, -⟩ := h; cases hc
  | cons c rest ih =>
    by_cases h0 : c.2 = 0
    · simp [shiftBody, h0]
    · obtain ⟨c', hc', hc0⟩ := h
      rcases List.mem_cons.mp hc' with rfl | hc'
      · exact absurd hc0 h0
      · simp [shiftBody, h0, ih ⟨c', hc', hc0⟩]

/--
C6.  `shift` computes the candidate body with the source's inverted
left/right mapping: Left increments every column, Right decrements it,
Up decrements every row, Down increments it; and for Right and Up, a
coordinate at 0 makes `shift` fail immediately with `BorderCollision`,
leaving the piece and grid untouched.
-/
theorem C6_direction_mapping (t : Tetromino) (p : Playfield) :
    shiftBody Direction.Left t.body = Except.ok (t.body.map (fun c => (c.1 + 1, c.2)))
      ∧ shiftBody Direction.Down t.body = Except.ok (t.body.map (fun c => (c.1, c.2 + 1)))
      ∧ ((∀ c ∈ t.body, c.1 ≠ 0) →
          shiftBody Direction.Right t.body = Except.ok (t.body.map (fun c => (c.1 - 1, c.2))))
      ∧ ((∃ c ∈ t.body, c.1 = 0) →
          t.shift p Direction.Right = (Except.error ShiftError.BorderCollision, t, p))
      ∧ ((∀ c ∈ t.body, c.2 ≠ 0) →
          shiftBody Direction.Up t.body = Except.ok (t.body.map (fun c => (c.1, c.2 - 1))))
      ∧ ((∃ c ∈ t.body, c.2 = 0) →
          t.shift p Direction.Up = (Except.error ShiftError.BorderCollision, t, p)) := by
  refine ⟨shiftBody_left t.body, shiftBody_down t.body,
    shiftBody_right_ok t.body, fun h => ?_, shiftBody_up_ok t.body, fun h => ?_⟩
  · simp [Tetromino.shift, shiftBody_right_err t.body h]
  · simp [Tetromino.shift, shiftBody_up_err t.body h]

/-- Witness for C6: the conditional parts applied concretely — the J piece
shifted Right succeeds minus one column; the O piece (column 0 present)
fails immediately with `BorderCollision`. -/
theorem C6_witness :
    ((∀ c ∈ pieceJ.body, c.1 ≠ 0) →
      shiftBody Direction.Right pieceJ.body
        = Except.ok (pieceJ.body.map (fun c => (c.1 - 1, c.2))))
      ∧ ((∃ c ∈ pieceO.body, c.1 = 0) →
          pieceO.shift smallGrid Direction.Right
            = (Except.error ShiftError.BorderCollision, pieceO, smallGrid))
      ∧ pieceO.shift smallGrid Direction.Right
          = (Except.error ShiftError.BorderCollision, pieceO, smallGrid) := by
  refine ⟨(C6_direction_mapping pieceJ smallGrid).2.2.1, ?_, ?_⟩
  · exact (C6_direction_mapping pieceO smallGrid).2.2.2.1
  · exact (C6_direction_mapping pieceO smallGrid).2.2.2.1 (by decide)

/-! ### C9 — rotating the O piece is a no-op -/

/--
C9.  Rotating an O piece any number of times, with any sequence of
clockwise / counter-clockwise flags, leaves its body, its rotation state
and every grid cell unchanged (`rotate` returns at once when
`shape == 'O'`).
-/
theorem C9_O_rotations_noop (t : Tetromino) (p : Playfield) (flags : List Bool)
    (hO : t.shape = 'O') : rotSeq flags (t, p) = (t, p) := by
  induction flags with
  | nil => rfl
  | cons cw rest ih =>
    show rotSeq rest ((t.rotate p cw).1, (t.rotate p cw).2) = (t, p)
    rw [Tetromino.rotate, if_pos hO]
    exact ih

/-- Witness for C9: three rotations of the default O piece. -/
theorem C9_witness :
    pieceO.shape = 'O' ∧ rotSeq [true, false, true] (pieceO, smallGrid) = (pieceO, smallGrid) :=
  ⟨rfl, C9_O_rotations_noop pieceO smallGrid [true, false, true] rfl⟩

/-! ### C4 — hard drop -/

theorem downBy_zero (nb : List Coordinates) : downBy 0 nb = nb := by
  simp [downBy]

theorem downBy_map_down1 (k : Nat) (nb : List Coordinates) :
    downBy k (nb.map down1) = downBy (k + 1) nb := by
  simp only [downBy, List.map_map]
  congr 1
  funext c
  simp only [Function.comp, down1, Prod.mk.injEq, true_and]
  omega

theorem downBy_sub_one {k : Nat} (hk : 1 ≤ k) (nb : List Coordinates) :
    (downBy k nb).map (fun c => (c.1, c.2 - 1)) = downBy (k - 1) nb := by
  simp only [downBy, List.map_map]
  congr 1
  funext c
  simp only [Function.comp, Prod.mk.injEq, true_and]
  omega

theorem hardDropLoop_eq_downBy (t : Tetromino) (p : Playfield) :
    ∀ (f : Nat) (nb : List Coordinates),
      hardDropLoop t p f nb = downBy (dropDist t p f nb) nb := by
  intro f
  induction f with
  | zero => intro nb; simp [hardDropLoop, dropDist, downBy_zero]
  | succ f ih =>
    intro nb
    by_cases hok : isOkE (t.collides nb p Direction.Down) = true
    · simp only [hardDropLoop, dropDist, hok, if_true]
      rw [ih, downBy_map_down1]
    · have hok' : isOkE (t.collides nb p Direction.Down) = false := Bool.eq_false_iff.mpr hok
      simp only [hardDropLoop, dropDist, hok', Bool.false_eq_true, if_false]
      rw [downBy_zero]

theorem dropDist_ok (t : Tetromino) (p : Playfield) :
    ∀ (f : Nat) (nb : List Coordinates) (j : Nat), j < dropDist t p f nb →
      isOkE (t.collides (downBy j nb) p Direction.Down) = true := by
  intro f
  induction f with
  | zero => intro nb j hj; simp [dropDist] at hj
  | succ f ih =>
    intro nb j hj
    by_cases hok : isOkE (t.collides nb p Direction.Down) = true
    · simp only [dropDist, hok, if_true] at hj
      match j with
      | 0 => rw [downBy_zero]; exact hok
      | j + 1 =>
        have := ih (nb.map down1) j (by omega)
        rwa [downBy_map_down1] at this
    · have hok' : isOkE (t.collides nb p Direction.Down) = false := Bool.eq_false_iff.mpr hok
      simp only [dropDist, hok', Bool.false_eq_true, if_false] at hj
      omega

theorem dropDist_fail (t : Tetromino) (p : Playfield) :
    ∀ (f : Nat) (nb : List Coordinates) (m : Nat), m < f →
      isOkE (t.collides (downBy m nb) p Direction.Down) = false →
      isOkE (t.collides (downBy (dropDist t p f nb) nb) p Direction.Down) = false := by
  intro f
  induction f with
  | zero => intro nb m hm; omega
  | succ f ih =>
    intro nb m hm hfail
    by_cases hok : isOkE (t.collides nb p Direction.Down) = true
    · simp only [dropDist, hok, if_true]
      match m with
      | 0 =>
        rw [downBy_zero] at hfail
        rw [hfail] at hok
        cases hok
      | m + 1 =>
        have hfail' : isOkE (t.collides (downBy m (nb.map down1)) p Direction.Down) = false := by
          rwa [downBy_map_down1]
        have := ih (nb.map down1) m (by omega) hfail'
        rwa [downBy_map_down1] at this
    · have hok' : isOkE (t.collides nb p Direction.Down) = false := Bool.eq_false_iff.mpr hok
      simp only [dropDist, hok', Bool.false_eq_true, if_false]
      rw [downBy_zero]
      exact hok'

theorem collides_downBy_height_fails (t : Tetromino) (p : Playfield)
    {nb : List Coordinates} (hne : nb ≠ []) :
    isOkE (t.collides (downBy p.tiles.length nb) p Direction.Down) = false := by
  match nb with
  | [] => exact absurd rfl hne
  | c :: rest =>
    have hoob : p.tiles.length ≤ (c.1, c.2 + p.tiles.length).2 := Nat.le_add_left _ _
    show isOkE (collidesAux p Direction.Down
      ((c.1, c.2 + p.tiles.length) :: downBy p.tiles.length rest)) = false
    rw [collidesAux_cons_err (stepRes_row_oob hoob)]
    rfl

/--
C4.  `hard_drop` always returns `BottomCollision` (never `BorderCollision`);
and whenever the piece's current body passes the Down collision check (true
of every properly placed piece), the committed body is the trial body one
row above the first position the collision check rejects — i.e. the last
collision-free position — and it is committed to both the piece and the
grid through `change_position`.
-/
theorem C4_hard_drop (t : Tetromino) (p : Playfield) :
    (t.hard_drop p).2.2 = ShiftError.BottomCollision
      ∧ (t.body ≠ [] → isOkE (t.collides t.body p Direction.Down) = true →
          1 ≤ dropDist t p (p.tiles.length + 1) t.body
          ∧ (∀ j < dropDist t p (p.tiles.length + 1) t.body,
              isOkE (t.collides (downBy j t.body) p Direction.Down) = true)
          ∧ isOkE (t.collides (downBy (dropDist t p (p.tiles.length + 1) t.body) t.body)
              p Direction.Down) = false
          ∧ t.hard_drop p =
              ((t.change_position
                  (downBy (dropDist t p (p.tiles.length + 1) t.body - 1) t.body) p).1,
               (t.change_position
                  (downBy (dropDist t p (p.tiles.length + 1) t.body - 1) t.body) p).2,
               ShiftError.BottomCollision)) := by
  constructor
  · rfl
  · intro hne h0
    have hk1 : 1 ≤ dropDist t p (p.tiles.length + 1) t.body := by
      simp [dropDist, h0]
    refine ⟨hk1, fun j hj => dropDist_ok t p _ t.body j hj, ?_, ?_⟩
    · exact dropDist_fail t p (p.tiles.length + 1) t.body p.tiles.length
        (by omega) (collides_downBy_height_fails t p hne)
    · simp only [Tetromino.hard_drop]
      rw [hardDropLoop_eq_downBy t p (p.tiles.length + 1) t.body,
        downBy_sub_one hk1 t.body]

/-- Witness for C4: the O piece resting on the top of a 2-wide, 3-tall grid
drops by one row (first rejection after two trial steps). -/
theorem C4_witness :
    pieceO.body ≠ []
      ∧ isOkE (pieceO.collides pieceO.body dropGrid Direction.Down) = true
      ∧ (1 ≤ dropDist pieceO dropGrid (dropGrid.tiles.length + 1) pieceO.body
        ∧ (∀ j < dropDist pieceO dropGrid (dropGrid.tiles.length + 1) pieceO.body,
            isOkE (pieceO.collides (downBy j pieceO.body) dropGrid Direction.Down) = true)
        ∧ isOkE (pieceO.collides
            (downBy (dropDist pieceO dropGrid (dropGrid.tiles.length + 1) pieceO.body)
              pieceO.body) dropGrid Direction.Down) = false
        ∧ pieceO.hard_drop dropGrid =
            ((pieceO.change_position
                (downBy (dropDist pieceO dropGrid (dropGrid.tiles.length + 1) pieceO.body - 1)
                  pieceO.body) dropGrid).1,
             (pieceO.change_position
                (downBy (dropDist pieceO dropGrid (dropGrid.tiles.length + 1) pieceO.body - 1)
                  pieceO.body) dropGrid).2,
             ShiftError.BottomCollision)) := by
  refine ⟨by decide, by decide, ?_⟩
  exact (C4_hard_drop pieceO dropGrid).2 (by decide) (by decide)

/-! ### C7 — spawn -/

theorem foldl_minmax_pair (l : List Coordinates) (a b : Nat) :
    l.foldl (fun acc c => (Nat.max acc.1 c.1, Nat.min acc.2 c.1)) (a, b)
      = (l.foldl (fun m c => Nat.max m c.1) a, l.foldl (fun m c => Nat.min m c.1) b) := by
  induction l generalizing a b with
  | nil => rfl
  | cons c rest ih => exact ih (Nat.max a c.1) (Nat.min b c.1)

theorem foldl_min_zero (l : List Coordinates) :
    l.foldl (fun m c => Nat.min m c.1) 0 = 0 := by
  induction l with
  | nil => rfl
  | cons c rest ih => simpa [Nat.zero_min] using ih

/-- `get_length` computes `max(col) + 1`: its `min` accumulator starts at 0
and `usize` columns are nonnegative, so the `min` component is always 0. -/
theorem get_length_eq_maxCol (t : Tetromino) : t.get_length = maxCol t.body + 1 := by
  simp only [Tetromino.get_length, maxCol, foldl_minmax_pair, foldl_min_zero]

/-- Under the spec's premise that the original body touches column 0, the
source's `get_length` agrees with the spec's extent `max(col) − min(col) + 1`. -/
theorem get_length_eq_extent (t : Tetromino) (hmin : minCol t.body = 0) :
    t.get_length = maxCol t.body - minCol t.body + 1 := by
  rw [get_length_eq_maxCol, hmin, Nat.sub_zero]

theorem get_x_midpoint_new (fw fh w h xs ys : Nat) (hxs : 0 < xs) :
    (Playfield.new fw fh w h xs ys).get_x_midpoint = w / 2 := by
  simp only [Playfield.new, Playfield.get_x_midpoint, Nat.add_sub_cancel]
  rw [Nat.mul_div_cancel _ hxs]

theorem spawnLoop_eq (color : Color) (mp : Nat) :
    ∀ (l : List Coordinates) (ts : Tiles),
      spawnLoop color mp l ts
        = (l.map (fun c => (c.1 + mp, c.2)),
           setActiveCells color ts (l.map (fun c => (c.1 + mp, c.2)))) := by
  intro l
  induction l with
  | nil => intro ts; rfl
  | cons c rest ih =>
    intro ts
    obtain ⟨x, y⟩ := c
    simp only [spawnLoop, List.map_cons, setActiveCells, ih]

theorem inB_setTile (ts : Tiles) (y x : Nat) (v : Option Playcell) (c : Coordinates) :
    inB (setTile ts y x v) c ↔ inB ts c := by
  unfold inB
  rw [length_setTile, rowLen_setTile]

theorem getTile_setActiveCells (color : Color) :
    ∀ (l : List Coordinates) (ts : Tiles) (c : Coordinates),
      getTile (setActiveCells color ts l) c.2 c.1 =
        if c ∈ l ∧ inB ts c then some ⟨true, color⟩ else getTile ts c.2 c.1 := by
  intro l
  induction l with
  | nil => intro ts c; simp [setActiveCells]
  | cons a rest ih =>
    intro ts c
    obtain ⟨ax, ay⟩ := a
    show getTile (setActiveCells color (setTile ts ay ax (some ⟨true, color⟩)) rest) c.2 c.1 = _
    rw [ih]
    by_cases h1 : c ∈ rest ∧ inB (setTile ts ay ax (some ⟨true, color⟩)) c
    · rw [if_pos h1, if_pos ⟨List.mem_cons_of_mem _ h1.1, (inB_setTile ts ay ax _ c).mp h1.2⟩]
    · rw [if_neg h1, getTile_setTile]
      by_cases h2 : c.2 = ay ∧ c.1 = ax ∧ ay < ts.length ∧ ax < (ts.getD ay []).length
      · have hceq : c = (ax, ay) := Prod.ext h2.2.1 h2.1
        have hinb : inB ts c := by
          rw [hceq]
          exact ⟨h2.2.2.1, h2.2.2.2⟩
        rw [if_pos h2, if_pos ⟨hceq ▸ List.mem_cons_self (ax, ay) rest, hinb⟩]
      · rw [if_neg h2, if_neg ?_]
        rintro ⟨hcmem, hcinb⟩
        rcases List.mem_cons.mp hcmem with hceq | hcmem'
        · refine h2 ?_
          subst hceq
          exact ⟨rfl, rfl, hcinb.1, hcinb.2⟩
        · exact h1 ⟨hcmem', (inB_setTile ts ay ax _ c).mpr hcinb⟩

theorem getD_replicate_lt {α : Type _} (n : Nat) (a : α) (y : Nat) (d : α) (h : y < n) :
    (List.replicate n a).getD y d = a :=
  getD_eq_of_getElem? (by rw [List.getElem?_replicate, if_pos h])

/--
C7.  `spawn` adds to every body column the offset
`w / 2 − (max(col) − min(col) + 1) / 2` — the horizontal midpoint of the
playable width minus half the horizontal extent — leaving rows unchanged,
and marks each resulting in-bounds cell active with the piece's color.
(The premise `minCol t.body = 0` holds for every default piece body; the
source computes the extent as `max + min + 1` with `min` folded from 0,
which coincides with the spec's `max − min + 1` exactly when the unshifted
body touches column 0.)
-/
theorem C7_spawn (t : Tetromino) (fw fh w h xs ys : Nat) (hxs : 0 < xs)
    (hmin : minCol t.body = 0) :
    (Playfield.new fw fh w h xs ys).get_x_midpoint = w / 2
      ∧ (t.spawn (Playfield.new fw fh w h xs ys)).1.body
          = t.body.map (fun c => (c.1 + (w / 2 - (maxCol t.body - minCol t.body + 1) / 2), c.2))
      ∧ (∀ c ∈ t.body, c.2 < h →
          c.1 + (w / 2 - (maxCol t.body - minCol t.body + 1) / 2) < w →
          getTile (t.spawn (Playfield.new fw fh w h xs ys)).2.tiles c.2
              (c.1 + (w / 2 - (maxCol t.body - minCol t.body + 1) / 2))
            = some ⟨true, t.color⟩) := by
  have hmid := get_x_midpoint_new fw fh w h xs ys hxs
  have hoff : (Playfield.new fw fh w h xs ys).get_x_midpoint - t.get_length / 2
      = w / 2 - (maxCol t.body - minCol t.body + 1) / 2 := by
    rw [hmid, get_length_eq_extent t hmin]
  refine ⟨hmid, ?_, ?_⟩
  · simp only [Tetromino.spawn, spawnLoop_eq, hoff]
  · intro c hc hrow hcol
    simp only [Tetromino.spawn, spawnLoop_eq, hoff]
    have hmem : (c.1 + (w / 2 - (maxCol t.body - minCol t.body + 1) / 2), c.2)
        ∈ t.body.map (fun c => (c.1 + (w / 2 - (maxCol t.body - minCol t.body + 1) / 2), c.2)) :=
      List.mem_map_of_mem _ hc
    have hinb : inB (Playfield.new fw fh w h xs ys).tiles
        (c.1 + (w / 2 - (maxCol t.body - minCol t.body + 1) / 2), c.2) := by
      constructor
      · simpa [Playfield.new] using hrow
      · show (c.1 + (w / 2 - (maxCol t.body - minCol t.body + 1) / 2))
          < ((Playfield.new fw fh w h xs ys).tiles.getD c.2 []).length
        have : (Playfield.new fw fh w h xs ys).tiles.getD c.2 [] = List.replicate w none := by
          simp only [Playfield.new]
          exact getD_replicate_lt h _ c.2 [] hrow
        rw [this, List.length_replicate]
        exact hcol
    have := getTile_setActiveCells t.color
      (t.body.map (fun c => (c.1 + (w / 2 - (maxCol t.body - minCol t.body + 1) / 2), c.2)))
      (Playfield.new fw fh w h xs ys).tiles
      (c.1 + (w / 2 - (maxCol t.body - minCol t.body + 1) / 2), c.2)
    rw [this, if_pos ⟨hmem, hinb⟩]

/-- Witness for C7: on a 10-wide, 20-tall grid the O piece spawns at
columns 4 and 5, rows 0 and 1, with active yellow cells. -/
theorem C7_witness :
    (0 < 2 ∧ minCol pieceO.body = 0)
      ∧ (pieceO.spawn (Playfield.new 80 40 10 20 2 1)).1.body = [(4, 0), (4, 1), (5, 0), (5, 1)]
      ∧ getTile (pieceO.spawn (Playfield.new 80 40 10 20 2 1)).2.tiles 1 5
          = some ⟨true, Color.Yellow⟩ := by
  refine ⟨⟨by decide, by decide⟩, ?_, ?_⟩
  · have h := (C7_spawn pieceO 80 40 10 20 2 1 (by decide) (by decide)).2.1
    rw [h]
    rfl
  · have h := (C7_spawn pieceO 80 40 10 20 2 1 (by decide) (by decide)).2.2
      (1, 1) (by decide) (by decide) (by decide)
    exact h

/-! ### C3 — clearing two simultaneously full rows -/

theorem getD_set_self {α : Type _} {l : List α} {i : Nat} (a d : α) (h : i < l.length) :
    (l.set i a).getD i d = a :=
  getD_eq_of_getElem? (List.getElem?_set_self h)

theorem getD_set_ne {α : Type _} {l : List α} {i j : Nat} (a d : α) (h : i ≠ j) :
    (l.set i a).getD j d = l.getD j d := by
  rw [List.getD_eq_getElem?_getD, List.getElem?_set_ne h, ← List.getD_eq_getElem?_getD]

theorem take_set_of_le {α : Type _} (l : List α) (i : Nat) (a : α) (y : Nat) (h : y ≤ i) :
    (l.set i a).take y = l.take y := by
  apply List.ext_getElem?
  intro n
  rw [List.getElem?_take, List.getElem?_take]
  by_cases hn : n < y
  · rw [if_pos hn, if_pos hn, List.getElem?_set_ne (by omega)]
  · rw [if_neg hn, if_neg hn]

theorem drop_set_self {α : Type _} (l : List α) (i : Nat) (a : α) (h : i < l.length) :
    (l.set i a).drop i = a :: l.drop (i + 1) := by
  rw [List.drop_set, if_neg (by omega), Nat.sub_self,
    List.drop_eq_getElem_cons (by omega : i < l.length)]
  rfl

theorem drop_set_of_lt {α : Type _} (l : List α) (i : Nat) (a : α) (j : Nat) (h : i < j) :
    (l.set i a).drop j = l.drop j := by
  rw [List.drop_set, if_pos h]

theorem map_const_none (r : Row) :
    r.map (fun _ => (none : Option Playcell)) = List.replicate r.length none := by
  induction r with
  | nil => rfl
  | cons a rest ih => simp [ih, List.replicate_succ]

theorem getD_append_lt {α : Type _} (l1 l2 : List α) (j : Nat) (d : α) (h : j < l1.length) :
    (l1 ++ l2).getD j d = l1.getD j d := by
  rw [List.getD_eq_getElem?_getD, List.getElem?_append, if_pos h,
    ← List.getD_eq_getElem?_getD]

theorem getD_append_len {α : Type _} (l1 l2 : List α) (k : Nat) (d : α) :
    (l1 ++ l2).getD (l1.length + k) d = l2.getD k d := by
  rw [List.getD_eq_getElem?_getD, List.getElem?_append_right (by omega),
    Nat.add_sub_cancel_left, ← List.getD_eq_getElem?_getD]

theorem getD_append_self {α : Type _} (l1 l2 : List α) (d : α) :
    (l1 ++ l2).getD l1.length d = l2.getD 0 d := by
  have h := getD_append_len l1 l2 0 d
  rwa [Nat.add_zero] at h

theorem drop_append_len {α : Type _} (l1 l2 : List α) (k : Nat) :
    (l1 ++ l2).drop (l1.length + k) = l2.drop k := by
  induction l1 with
  | nil => simp
  | cons a l1 ih =>
    show (a :: (l1 ++ l2)).drop (l1.length + 1 + k) = l2.drop k
    rw [show l1.length + 1 + k = (l1.length + k) + 1 by omega, List.drop_succ_cons]
    exact ih

theorem length_swapRows (ts : Tiles) (i j : Nat) : (swapRows ts i j).length = ts.length := by
  simp [swapRows]

/-- The `(0..y).rev()` swap loop rotates the initial segment: row `y` moves
to the front and rows `0..y` each move down one. -/
theorem swapLoop_eq :
    ∀ (y : Nat) (ts : Tiles), y < ts.length →
      (List.range y).reverse.foldl (fun acc line => swapRows acc line (line + 1)) ts
        = ts.getD y [] :: (ts.take y ++ ts.drop (y + 1)) := by
  intro y
  induction y with
  | zero =>
    intro ts h
    match ts, h with
    | r :: rest, _ => simp
  | succ y ih =>
    intro ts h
    rw [List.range_succ, List.reverse_append]
    show List.foldl _ _ ([y] ++ (List.range y).reverse) = _
    rw [List.foldl_append]
    have hlen : y < (swapRows ts y (y + 1)).length := by
      rw [length_swapRows]; omega
    show (List.range y).reverse.foldl (fun acc line => swapRows acc line (line + 1))
        (swapRows ts y (y + 1)) = _
    rw [ih (swapRows ts y (y + 1)) hlen]
    have hy : y < ts.length := by omega
    have ha : (swapRows ts y (y + 1)).getD y [] = ts.getD (y + 1) [] := by
      unfold swapRows
      rw [getD_set_ne _ _ (by omega), getD_set_self _ _ hy]
    have hb : (swapRows ts y (y + 1)).take y = ts.take y := by
      unfold swapRows
      rw [take_set_of_le _ _ _ _ (by omega), take_set_of_le _ _ _ _ (by omega)]
    have hc : (swapRows ts y (y + 1)).drop (y + 1) = ts.getD y [] :: ts.drop (y + 2) := by
      unfold swapRows
      rw [drop_set_self _ _ _ (by rw [List.length_set]; omega),
        drop_set_of_lt _ _ _ _ (by omega)]
    rw [ha, hb, hc]
    have htake : ts.take (y + 1) = ts.take y ++ [ts.getD y []] := by
      rw [List.take_succ, List.getElem?_eq_getElem hy]
      have : ts.getD y [] = ts[y] := getD_eq_of_getElem? (List.getElem?_eq_getElem hy)
      rw [this]
      rfl
    rw [htake]
    simp

theorem clearAt_eq (ts : Tiles) (y : Nat) (h : y < ts.length) :
    clearAt ts y
      = List.replicate (ts.getD y []).length none :: (ts.take y ++ ts.drop (y + 1)) := by
  unfold clearAt
  have h1 : y < (ts.set y ((ts.getD y []).map (fun _ => none))).length := by
    rw [List.length_set]; exact h
  rw [swapLoop_eq y _ h1]
  rw [getD_set_self _ _ h, take_set_of_le _ _ _ _ (Nat.le_refl y),
    drop_set_of_lt _ _ _ _ (Nat.lt_succ_self y), map_const_none]

/-- The scan does nothing over a block of indices whose rows are not full. -/
theorem clearSteps_skip :
    ∀ (n a : Nat) (st : Bool × Tiles),
      (∀ j, a ≤ j → j < a + n → rowFull (st.2.getD j []) = false) →
      (List.range' a n).foldl clearStep st = st := by
  intro n
  induction n with
  | zero => intro a st _; rfl
  | succ n ih =>
    intro a st h
    rw [List.range'_succ]
    show (List.range' (a + 1) n).foldl clearStep (clearStep st a) = st
    have hfa : rowFull (st.2.getD a []) = false := h a (Nat.le_refl a) (by omega)
    have hstep : clearStep st a = st := by
      rw [clearStep, hfa]
      simp
    rw [hstep]
    exact ih (a + 1) st (fun j hj1 hj2 => h j (by omega) (by omega))

theorem range_split (r b : Nat) :
    List.range (r + 2 + b) = List.range' 0 r ++ r :: (r + 1) :: List.range' (r + 2) b := by
  rw [List.range_eq_range']
  have h1 : List.range' 0 r 1 ++ List.range' (0 + 1 * r) (2 + b) 1 = List.range' 0 ((2 + b) + r) 1 :=
    List.range'_append 0 r (2 + b) 1
  rw [show r + 2 + b = (2 + b) + r by omega, ← h1]
  congr 1
  · rw [show 0 + 1 * r = r by omega]
    rw [show 2 + b = (1 + b) + 1 by omega, List.range'_succ]
    congr 1
    rw [show 1 + b = b + 1 by omega, List.range'_succ]

/--
C3.  For every grid consisting of non-full rows `A`, then two adjacent
completely full rows, then non-full rows `B` (in particular the bottom two
rows of a grid, where `B = []`), a single `clear_lines` call returns `true`,
both full rows' contents disappear, every row of `A` moves down by exactly
two positions, the top two rows become empty, and the rows below are
untouched.
-/
theorem C3_clear_lines (p : Playfield) (A B : Tiles) (f1 f2 : Row) (w : Nat)
    (hp : p.tiles = A ++ f1 :: f2 :: B)
    (hA : ∀ r ∈ A, rowFull r = false)
    (hB : ∀ r ∈ B, rowFull r = false)
    (hf1 : rowFull f1 = true) (hf2 : rowFull f2 = true)
    (hw1 : f1.length = w) (hw2 : f2.length = w) :
    p.clear_lines
      = (true, { p with tiles :=
          List.replicate w none :: List.replicate w none :: (A ++ B) }) := by
  have hlen : p.tiles.length = A.length + 2 + B.length := by
    rw [hp]
    simp
    omega
  -- Phase 1: indices below A.length do nothing.
  have hskipA : (List.range' 0 A.length).foldl clearStep (false, p.tiles) = (false, p.tiles) := by
    apply clearSteps_skip
    intro j hj0 hj1
    show rowFull (p.tiles.getD j []) = false
    rw [hp, getD_append_lt _ _ _ _ (by omega)]
    exact hA _ (by
      have : A.getD j [] = A[j] := getD_eq_of_getElem? (List.getElem?_eq_getElem (by omega))
      rw [this]
      exact List.getElem_mem _)
  -- Phase 2: index A.length clears f1.
  have hgetf1 : p.tiles.getD A.length [] = f1 := by
    rw [hp, getD_append_self]
    rfl
  have hstep1 : clearStep (false, p.tiles) A.length = (true, clearAt p.tiles A.length) := by
    rw [clearStep]
    show (if rowFull (p.tiles.getD A.length []) = true then _ else _) = _
    rw [hgetf1, hf1]
    simp
  have hclear1 : clearAt p.tiles A.length
      = List.replicate w none :: (A ++ f2 :: B) := by
    rw [clearAt_eq _ _ (by omega), hgetf1, hw1, hp]
    congr 1
    rw [List.take_left, drop_append_len A (f1 :: f2 :: B) 1]
    rfl
  -- Phase 3: index A.length + 1 clears f2 (now at that position).
  have hgetf2 : (List.replicate w none :: (A ++ f2 :: B)).getD (A.length + 1) [] = f2 := by
    rw [List.getD_cons_succ, getD_append_self]
    rfl
  have hstep2 : clearStep (true, List.replicate w none :: (A ++ f2 :: B)) (A.length + 1)
      = (true, clearAt (List.replicate w none :: (A ++ f2 :: B)) (A.length + 1)) := by
    rw [clearStep]
    show (if rowFull ((List.replicate w none :: (A ++ f2 :: B)).getD (A.length + 1) []) = true
      then _ else _) = _
    rw [hgetf2, hf2]
    simp
  have hlenT1 : (List.replicate w none :: (A ++ f2 :: B)).length = A.length + 2 + B.length := by
    simp
    omega
  have hclear2 : clearAt (List.replicate w none :: (A ++ f2 :: B)) (A.length + 1)
      = List.replicate w none :: List.replicate w none :: (A ++ B) := by
    rw [clearAt_eq _ _ (by omega), hgetf2, hw2]
    congr 1
    have htake : (List.replicate w none :: (A ++ f2 :: B)).take (A.length + 1)
        = List.replicate w none :: A := by
      rw [List.take_succ_cons, List.take_left]
    have hdrop : (List.replicate w none :: (A ++ f2 :: B)).drop (A.length + 1 + 1)
        = B := by
      rw [List.drop_succ_cons, drop_append_len A (f2 :: B) 1]
      rfl
    rw [htake, hdrop]
    simp
  -- Phase 4: indices above do nothing.
  have hskipB : (List.range' (A.length + 2) B.length).foldl clearStep
      (true, List.replicate w none :: List.replicate w none :: (A ++ B))
      = (true, List.replicate w none :: List.replicate w none :: (A ++ B)) := by
    apply clearSteps_skip
    intro j hj0 hj1
    obtain ⟨k, rfl⟩ : ∃ k, j = A.length + 2 + k := ⟨j - (A.length + 2), by omega⟩
    show rowFull ((List.replicate w none :: List.replicate w none :: (A ++ B)).getD
      (A.length + 2 + k) []) = false
    rw [show A.length + 2 + k = (A.length + 1 + k) + 1 by omega, List.getD_cons_succ,
      show A.length + 1 + k = (A.length + k) + 1 by omega, List.getD_cons_succ,
      getD_append_len]
    have hkB : k < B.length := by omega
    have hBk : B.getD k [] = B[k] :=
      getD_eq_of_getElem? (List.getElem?_eq_getElem hkB)
    rw [hBk]
    exact hB _ (List.getElem_mem _)
  -- Assemble the four phases.
  have hfold : (List.range p.tiles.length).foldl clearStep (false, p.tiles)
      = (true, List.replicate w none :: List.replicate w none :: (A ++ B)) := by
    rw [hlen, range_split A.length B.length, List.foldl_append, hskipA,
      List.foldl_cons, hstep1, hclear1, List.foldl_cons, hstep2, hclear2]
    exact hskipB
  simp only [Playfield.clear_lines]
  rw [hfold]

/-! ### C8 — seven-bag fairness -/

theorem bag_get_no_shuffle (sh : List Tetromino → List Tetromino) (l : List Tetromino)
    (i : Nat) (h : i < l.length) :
    TetrominosBag.get sh ⟨l, i⟩ = (l.getD i pieceO, ⟨l, i + 1⟩) := by
  simp only [TetrominosBag.get]
  rw [if_neg (by omega : ¬ l.length ≤ i)]

theorem bag_get_shuffle (sh : List Tetromino → List Tetromino) (l : List Tetromino)
    (j : Nat) (h : l.length ≤ j) :
    TetrominosBag.get sh ⟨l, j⟩ = ((sh l).getD 0 pieceO, ⟨sh l, 1⟩) := by
  simp only [TetrominosBag.get, TetrominosBag.shuffle]
  rw [if_pos h]

/-- A draw at an exhausted cursor behaves like a draw from the freshly
shuffled bag at cursor 0. -/
theorem drawN_boundary (shs : Nat → List Tetromino → List Tetromino)
    (l : List Tetromino) (j m : Nat) (hj : l.length ≤ j)
    (hne : (shs 0 l).length ≠ 0) :
    drawN shs (m + 1) ⟨l, j⟩ = drawN shs (m + 1) ⟨shs 0 l, 0⟩ := by
  simp only [drawN]
  rw [bag_get_shuffle _ _ _ hj, bag_get_no_shuffle _ _ _ (by omega)]

/-- Below the cursor-exhaustion threshold, `get` walks the array in order. -/
theorem drawSeg (k : Nat) :
    ∀ (shs : Nat → List Tetromino → List Tetromino) (l : List Tetromino) (i : Nat),
      i + k ≤ l.length →
      drawN shs k ⟨l, i⟩ = ((l.drop i).take k, ⟨l, i + k⟩) := by
  induction k with
  | zero => intro shs l i h; simp [drawN]
  | succ k ih =>
    intro shs l i h
    have hi : i < l.length := by omega
    simp only [drawN]
    rw [bag_get_no_shuffle (shs 0) l i hi]
    dsimp only
    rw [ih (fun k => shs (k + 1)) l (i + 1) (by omega)]
    have hdrop : l.drop i = l[i] :: l.drop (i + 1) := List.drop_eq_getElem_cons hi
    have hgd : l.getD i pieceO = l[i] :=
      getD_eq_of_getElem? (List.getElem?_eq_getElem hi)
    rw [hdrop, List.take_succ_cons, hgd, show i + 1 + k = i + (k + 1) by omega]

theorem drawN_append (a : Nat) :
    ∀ (m : Nat) (shs : Nat → List Tetromino → List Tetromino) (b0 : TetrominosBag),
      drawN shs (a + m) b0
        = ((drawN shs a b0).1
            ++ (drawN (fun n => shs (n + a)) m (drawN shs a b0).2).1,
           (drawN (fun n => shs (n + a)) m (drawN shs a b0).2).2) := by
  induction a with
  | zero =>
    intro m shs b0
    have hstream : (fun n => shs (n + 0)) = shs := by
      funext n
      rw [Nat.add_zero]
    rw [Nat.zero_add, hstream]
    simp [drawN]
  | succ a ih =>
    intro m shs b0
    rw [show a + 1 + m = (a + m) + 1 by omega]
    simp only [drawN]
    rw [ih m (fun k => shs (k + 1)) (TetrominosBag.get (shs 0) b0).2]
    have hstream : (fun n => shs (n + a + 1)) = (fun n => shs (n + (a + 1))) := by
      funext n
      rw [Nat.add_assoc]
    simp only [List.cons_append]
    rw [hstream]

/--
C8.  Starting at a shuffle boundary (cursor 0, array a permutation of the
seven default pieces), drawing `7 * N` pieces yields exactly `N`
occurrences of each of the seven shapes, for every stream of reshuffle
permutations.
-/
theorem C8_bag_fairness (shs : Nat → List Tetromino → List Tetromino)
    (hsh : ∀ k l, List.Perm (shs k l) l)
    (b : TetrominosBag) (hidx : b.index = 0)
    (hperm : List.Perm b.tetrominos TetrominosBag.new.tetrominos) (N : Nat) :
    ∀ c ∈ ['O', 'I', 'J', 'L', 'S', 'Z', 'T'],
      (((drawN shs (7 * N) b).1).map Tetromino.shape).count c = N := by
  induction N generalizing shs b with
  | zero =>
    intro c _
    rw [Nat.mul_zero]
    rfl
  | succ N ih =>
    intro c hc
    obtain ⟨l, idx⟩ := b
    simp only at hidx
    subst hidx
    have hlen : l.length = 7 := by
      have := hperm.length_eq
      simpa using this
    have hfirst : drawN shs 7 ⟨l, 0⟩ = (l, ⟨l, 7⟩) := by
      have h := drawSeg 7 shs l 0 (by omega)
      rw [h]
      simp [← hlen]
    have hcount1 : (l.map Tetromino.shape).count c = 1 := by
      have hp := (hperm.map Tetromino.shape).count_eq c
      rw [hp]
      have : c = 'O' ∨ c = 'I' ∨ c = 'J' ∨ c = 'L' ∨ c = 'S' ∨ c = 'Z' ∨ c = 'T' := by
        simpa using hc
      rcases this with rfl | rfl | rfl | rfl | rfl | rfl | rfl <;> rfl
    rw [show 7 * (N + 1) = 7 + 7 * N by ring]
    rw [drawN_append 7 (7 * N) shs ⟨l, 0⟩, hfirst]
    dsimp only
    rw [List.map_append, List.count_append, hcount1]
    have hrest : ((drawN (fun n => shs (n + 7)) (7 * N) ⟨l, 7⟩).1.map Tetromino.shape).count c
        = N := by
      cases N with
      | zero => rw [Nat.mul_zero]; rfl
      | succ M =>
        have hne : ((fun n => shs (n + 7)) 0 l).length ≠ 0 := by
          have := (hsh 7 l).length_eq
          simp only [Nat.zero_add]
          omega
        rw [show 7 * (M + 1) = (7 * M + 6) + 1 by ring]
        rw [drawN_boundary (fun n => shs (n + 7)) l 7 (7 * M + 6) (by omega) hne]
        rw [show (7 * M + 6) + 1 = 7 * (M + 1) by ring]
        exact ih (fun n => shs (n + 7)) (fun k l' => hsh (k + 7) l')
          ⟨shs 7 l, 0⟩ rfl ((hsh 7 l).trans hperm) c hc
    rw [hrest]
    omega

/-- Witness for C8: with the identity permutation stream, 14 draws from the
fresh bag contain each shape exactly twice. -/
theorem C8_witness :
    (∀ k l, List.Perm ((fun _ l' => l') k l) l)
      ∧ TetrominosBag.new.index = 0
      ∧ List.Perm TetrominosBag.new.tetrominos TetrominosBag.new.tetrominos
      ∧ (∀ c ∈ ['O', 'I', 'J', 'L', 'S', 'Z', 'T'],
          (((drawN (fun _ l' => l') (7 * 2) TetrominosBag.new).1).map Tetromino.shape).count c
            = 2) :=
  ⟨fun _ _ => List.Perm.refl _, rfl, List.Perm.refl _,
    C8_bag_fairness (fun _ l' => l') (fun _ _ => List.Perm.refl _)
      TetrominosBag.new rfl (List.Perm.refl _) 2⟩

/-- Witness for C3: a 2-wide, 4-tall grid whose bottom two rows are full;
one `clear_lines` call clears both and shifts the two top rows down by
two. -/
theorem C3_witness :
    ((∀ r ∈ [[none, none], [lockedRed, none]], rowFull r = false)
      ∧ (∀ r ∈ ([] : Tiles), rowFull r = false)
      ∧ rowFull [lockedRed, lockedRed] = true)
      ∧ clearGrid.clear_lines
          = (true, { clearGrid with tiles :=
                       List.replicate 2 none :: List.replicate 2 none ::
                         ([[none, none], [lockedRed, none]] ++ []) }) := by
  refine ⟨⟨by decide, by decide, by decide⟩, ?_⟩
  exact C3_clear_lines clearGrid [[none, none], [lockedRed, none]] []
    [lockedRed, lockedRed] [lockedRed, lockedRed] 2 rfl
    (by decide) (by decide) (by decide) (by decide) (by decide) (by decide)

/-! ### C10 — active cells track the falling piece -/

/-- `sameActiveAs` reduced to a bounded (decidable) check: activity is
false outside the grid, so the unbounded quantifier can range over the grid
only. -/
theorem sameActiveAs_iff_bounded (p : Playfield) (body : List Coordinates) :
    sameActiveAs p body ↔
      ((∀ c ∈ body, isActiveAt p c = true)
        ∧ ∀ y, y < p.tiles.length → ∀ x, x < (p.tiles.getD y []).length →
            isActiveAt p (x, y) = true → (x, y) ∈ body) := by
  constructor
  · intro h
    exact ⟨fun c hc => (h c).mpr hc, fun y _ x _ hact => (h (x, y)).mp hact⟩
  · rintro ⟨h1, h2⟩ c
    constructor
    · intro hact
      have hinb : inB p.tiles c := inB_of_active hact
      have : ((c.1, c.2) : Coordinates) ∈ body := h2 c.2 hinb.1 c.1 hinb.2 (by
        rw [show ((c.1, c.2) : Coordinates) = c from rfl]
        exact hact)
      rwa [show ((c.1, c.2) : Coordinates) = c from rfl] at this
    · exact h1 c

/-- A freshly constructed playfield has no active cells anywhere. -/
theorem isActiveAt_new_false (fw fh w h xs ys : Nat) (c : Coordinates) :
    isActiveAt (Playfield.new fw fh w h xs ys) c = false := by
  obtain ⟨x, y⟩ := c
  rw [isActiveAt]
  show (Option.map Playcell.is_active
    (getTile (List.replicate h (List.replicate w none)) y x)).getD false = false
  unfold getTile
  by_cases hy : y < h
  · rw [getD_replicate_lt h _ y [] hy]
    by_cases hx : x < w
    · rw [getD_replicate_lt w _ x none hx]
      rfl
    · rw [List.getD_eq_getElem?_getD,
        List.getElem?_eq_none (by rw [List.length_replicate]; omega)]
      rfl
  · rw [List.getD_eq_getElem?_getD (List.replicate h (List.replicate w none)) y [],
      List.getElem?_eq_none (by rw [List.length_replicate]; omega)]
    simp

theorem inB_clearCells :
    ∀ (l : List Coordinates) (ts : Tiles) (c : Coordinates),
      inB (clearCells ts l) c ↔ inB ts c := by
  intro l
  induction l with
  | nil => intro ts c; exact Iff.rfl
  | cons a rest ih =>
    intro ts c
    obtain ⟨ax, ay⟩ := a
    show inB (clearCells (setTile ts ay ax none) rest) c ↔ _
    rw [ih, inB_setTile]

theorem getTile_clearCells :
    ∀ (l : List Coordinates) (ts : Tiles) (c : Coordinates),
      getTile (clearCells ts l) c.2 c.1 =
        if c ∈ l ∧ inB ts c then none else getTile ts c.2 c.1 := by
  intro l
  induction l with
  | nil => intro ts c; simp [clearCells]
  | cons a rest ih =>
    intro ts c
    obtain ⟨ax, ay⟩ := a
    show getTile (clearCells (setTile ts ay ax none) rest) c.2 c.1 = _
    rw [ih]
    by_cases h1 : c ∈ rest ∧ inB (setTile ts ay ax none) c
    · rw [if_pos h1, if_pos ⟨List.mem_cons_of_mem _ h1.1, (inB_setTile ts ay ax _ c).mp h1.2⟩]
    · rw [if_neg h1, getTile_setTile]
      by_cases h2 : c.2 = ay ∧ c.1 = ax ∧ ay < ts.length ∧ ax < (ts.getD ay []).length
      · have hceq : c = (ax, ay) := Prod.ext h2.2.1 h2.1
        have hinb : inB ts c := by
          rw [hceq]
          exact ⟨h2.2.2.1, h2.2.2.2⟩
        rw [if_pos h2, if_pos ⟨hceq ▸ List.mem_cons_self (ax, ay) rest, hinb⟩]
      · rw [if_neg h2, if_neg ?_]
        rintro ⟨hcmem, hcinb⟩
        rcases List.mem_cons.mp hcmem with hceq | hcmem'
        · refine h2 ?_
          subst hceq
          exact ⟨rfl, rfl, hcinb.1, hcinb.2⟩
        · exact h1 ⟨hcmem', (inB_setTile ts ay ax _ c).mpr hcinb⟩

theorem collides_ok_all_inB {t : Tetromino} {p : Playfield} {d : Direction}
    {nb : List Coordinates} (h : isOkE (t.collides nb p d) = true) :
    ∀ c ∈ nb, inB p.tiles c :=
  fun c hc => stepRes_ok_inB ((collides_ok_iff t p d nb).mp h c hc)

/-- `change_position` makes the active set exactly the new body, provided
the active set was exactly the old body and the new body is in bounds. -/
theorem sameActiveAs_change_position (t : Tetromino) (nb : List Coordinates)
    (p : Playfield) (hpre : sameActiveAs p t.body) (hin : ∀ c ∈ nb, inB p.tiles c) :
    sameActiveAs (t.change_position nb p).2 nb := by
  intro c
  have hts : (t.change_position nb p).2.tiles
      = setActiveCells t.color (clearCells p.tiles t.body) nb := rfl
  show (Option.map Playcell.is_active
    (getTile (t.change_position nb p).2.tiles c.2 c.1)).getD false = true ↔ c ∈ nb
  rw [hts, getTile_setActiveCells]
  by_cases hmem : c ∈ nb
  · have hinb : inB (clearCells p.tiles t.body) c :=
      (inB_clearCells t.body p.tiles c).mpr (hin c hmem)
    rw [if_pos ⟨hmem, hinb⟩]
    simp [hmem]
  · rw [if_neg (fun hc => hmem hc.1), getTile_clearCells]
    by_cases h2 : c ∈ t.body ∧ inB p.tiles c
    · rw [if_pos h2]
      simp [hmem]
    · rw [if_neg h2]
      have hnb : c ∉ t.body := by
        intro hcb
        exact h2 ⟨hcb, inB_of_active ((hpre c).mpr hcb)⟩
      have hfalse : isActiveAt p c = false := by
        rcases Bool.eq_false_or_eq_true (isActiveAt p c) with ht | hf
        · exact absurd ((hpre c).mp ht) hnb
        · exact hf
      rw [isActiveAt] at hfalse
      rw [hfalse]
      simp [hmem]

theorem tryKicks_sameActive (t : Tetromino) (p : Playfield) (nc : List (Int × Int))
    (nr : RotationState) (hpre : sameActiveAs p t.body) :
    ∀ ks, sameActiveAs (tryKicks t p nc nr ks).2 (tryKicks t p nc nr ks).1.body := by
  intro ks
  induction ks with
  | nil => exact hpre
  | cons k rest ih =>
    by_cases h : isOkE (t.collides (kickCandidate nc k) p Direction.Up) = true
    · simp only [tryKicks, h, if_true]
      exact sameActiveAs_change_position t _ p hpre (collides_ok_all_inB h)
    · have h' : isOkE (t.collides (kickCandidate nc k) p Direction.Up) = false :=
        Bool.eq_false_iff.mpr h
      simp only [tryKicks, h', Bool.false_eq_true, if_false]
      exact ih

/--
C10, amended.  If the active cells are exactly the falling piece's body,
then `shift`, `rotate` and `hard_drop` each leave the active cells exactly
equal to the (possibly updated) piece's body.  `spawn`, however, clears
nothing: its precondition is a grid with *no* active cells (the previous
piece locked), and then the active cells afterwards are exactly the
spawned body (when the spawned cells are in bounds).
-/
theorem C10_active_cells :
    (∀ (t : Tetromino) (p : Playfield) (d : Direction), sameActiveAs p t.body →
        sameActiveAs (t.shift p d).2.2 (t.shift p d).2.1.body)
      ∧ (∀ (t : Tetromino) (p : Playfield) (cw : Bool), sameActiveAs p t.body →
          sameActiveAs (t.rotate p cw).2 (t.rotate p cw).1.body)
      ∧ (∀ (t : Tetromino) (p : Playfield), sameActiveAs p t.body →
          sameActiveAs (t.hard_drop p).2.1 (t.hard_drop p).1.body)
      ∧ (∀ (t : Tetromino) (p : Playfield), (∀ c, isActiveAt p c = false) →
          (∀ c ∈ (t.spawn p).1.body, inB p.tiles c) →
          sameActiveAs (t.spawn p).2 (t.spawn p).1.body) := by
  refine ⟨?_, ?_, ?_, ?_⟩
  · -- shift
    intro t p d hpre
    rcases hsb : shiftBody d t.body with e | nb
    · have : t.shift p d = (Except.error e, t, p) := by
        simp [Tetromino.shift, hsb]
      rw [this]
      exact hpre
    · rcases hc : t.collides nb p d with e | u
      · have : t.shift p d = (Except.error e, t, p) := by
          simp [Tetromino.shift, hsb, hc]
        rw [this]
        exact hpre
      · cases u
        have : t.shift p d
            = (Except.ok (), (t.change_position nb p).1, (t.change_position nb p).2) := by
          simp [Tetromino.shift, hsb, hc]
        rw [this]
        exact sameActiveAs_change_position t nb p hpre
          (collides_ok_all_inB (by rw [hc]; rfl))
  · -- rotate
    intro t p cw hpre
    by_cases hO : t.shape = 'O'
    · rw [Tetromino.rotate, if_pos hO]
      exact hpre
    · rw [Tetromino.rotate, if_neg hO]
      exact tryKicks_sameActive t p _ _ hpre _
  · -- hard drop
    intro t p hpre
    have h0 : isOkE (t.collides t.body p Direction.Down) = true :=
      collides_ok_of_active t p Direction.Down t.body (fun c hc => (hpre c).mpr hc)
    have hk1 : 1 ≤ dropDist t p (p.tiles.length + 1) t.body := by
      simp [dropDist, h0]
    have hok : isOkE (t.collides
        (downBy (dropDist t p (p.tiles.length + 1) t.body - 1) t.body) p Direction.Down)
        = true :=
      dropDist_ok t p (p.tiles.length + 1) t.body _ (by omega)
    show sameActiveAs (t.hard_drop p).2.1 (t.hard_drop p).1.body
    have heq : t.hard_drop p =
        ((t.change_position
            (downBy (dropDist t p (p.tiles.length + 1) t.body - 1) t.body) p).1,
         (t.change_position
            (downBy (dropDist t p (p.tiles.length + 1) t.body - 1) t.body) p).2,
         ShiftError.BottomCollision) := by
      simp only [Tetromino.hard_drop]
      rw [hardDropLoop_eq_downBy t p (p.tiles.length + 1) t.body,
        downBy_sub_one hk1 t.body]
    rw [heq]
    exact sameActiveAs_change_position t _ p hpre (collides_ok_all_inB hok)
  · -- spawn
    intro t p hempty hin
    have hb : (t.spawn p).1.body
        = t.body.map (fun c => (c.1 + (p.get_x_midpoint - t.get_length / 2), c.2)) := by
      simp [Tetromino.spawn, spawnLoop_eq]
    have hts : (t.spawn p).2.tiles
        = setActiveCells t.color p.tiles
            (t.body.map (fun c => (c.1 + (p.get_x_midpoint - t.get_length / 2), c.2))) := by
      simp [Tetromino.spawn, spawnLoop_eq]
    intro c
    show (Option.map Playcell.is_active
      (getTile (t.spawn p).2.tiles c.2 c.1)).getD false = true ↔ c ∈ (t.spawn p).1.body
    rw [hts, hb, getTile_setActiveCells]
    by_cases hmem : c ∈ t.body.map (fun c => (c.1 + (p.get_x_midpoint - t.get_length / 2), c.2))
    · have hinb : inB p.tiles c := hin c (by rw [hb]; exact hmem)
      rw [if_pos ⟨hmem, hinb⟩]
      simp [hmem]
    · rw [if_neg (fun hc => hmem hc.1)]
      have := hempty c
      rw [isActiveAt] at this
      rw [this]
      simp [hmem]

/--
C10, counterexample to the claim as stated: `spawn` is among the listed
operations, but starting from a grid whose active cells are exactly the
O piece's (default) body, spawning adds four new active cells without
clearing the old ones — cell (0, 0) stays active yet is not in the spawned
body.
-/
theorem C10_counterexample :
    sameActiveAs occupiedGrid pieceO.body
      ∧ isActiveAt (pieceO.spawn occupiedGrid).2 (0, 0) = true
      ∧ (0, 0) ∉ (pieceO.spawn occupiedGrid).1.body := by
  refine ⟨?_, by decide, by decide⟩
  rw [sameActiveAs_iff_bounded]
  decide

/-- Witness for C10: a successful Down shift of the O piece sitting at the
top of `dropGrid`, and a spawn into the empty `smallGrid`. -/
theorem C10_witness :
    (sameActiveAs dropGrid pieceO.body
      ∧ sameActiveAs (pieceO.shift dropGrid Direction.Down).2.2
          (pieceO.shift dropGrid Direction.Down).2.1.body)
      ∧ ((∀ c, isActiveAt smallGrid c = false)
        ∧ (∀ c ∈ (pieceO.spawn smallGrid).1.body, inB smallGrid.tiles c)
        ∧ sameActiveAs (pieceO.spawn smallGrid).2 (pieceO.spawn smallGrid).1.body) := by
  have hpre : sameActiveAs dropGrid pieceO.body := by
    rw [sameActiveAs_iff_bounded]
    decide
  have hempty : ∀ c, isActiveAt smallGrid c = false :=
    fun c => isActiveAt_new_false 20 20 4 4 1 1 c
  have hin : ∀ c ∈ (pieceO.spawn smallGrid).1.body, inB smallGrid.tiles c := by decide
  exact ⟨⟨hpre, C10_active_cells.1 pieceO dropGrid Direction.Down hpre⟩,
    ⟨hempty, hin, C10_active_cells.2.2.2 pieceO smallGrid hempty hin⟩⟩

end Tetrs


